import Mathlib

/-!
# Verification of the Agent Session Runtime (Cowork-Local-LLM)

Shallow embedding of the notification-routing, history-staleness, scheduler
parsing, tool filtering, sandbox path handling and notification-preview logic
of the repository, with theorems settling the specification claims.

JavaScript strings are modeled as Lean `String`/`List Char` (code points);
nullable strings as `Option String`.  JS truthiness of a nullable string
(`!s`) is `s = none ∨ s = some ""`.
-/

namespace Cowork

/-! ## JS string primitives -/

/-- The whitespace class of JavaScript's `\s` / `trim` restricted to the ASCII
range (space, tab, line feed, vertical tab, form feed, carriage return). -/
def isJsSpace (c : Char) : Bool :=
  c = ' ' || c = '\t' || c = '\n' || c = '\x0b' || c = '\x0c' || c = '\r'

/-- `String.prototype.trim` on the character list: remove leading and trailing
whitespace. -/
def trimChars (cs : List Char) : List Char :=
  ((cs.dropWhile isJsSpace).reverse.dropWhile isJsSpace).reverse

/-- `String.prototype.trimEnd` on the character list. -/
def trimEndChars (cs : List Char) : List Char :=
  (cs.reverse.dropWhile isJsSpace).reverse

/-- JS `s.trim()` as a `String` operation. -/
def jsTrim (s : String) : String :=
  String.mk (trimChars s.data)

/-- JS truthiness of a `string | null` value: `null` and `""` are falsy. -/
def strTruthy : Option String → Bool
  | none => false
  | some s => s != ""

/-! ## Event Router decisions

Source: `src/src/electron/libs/notification-routing.ts` and
`src/src/ui/utils/history-sync.ts`. -/

/-- `shouldNotifyForSession(status, sessionId, focusedSessionId)` from
`notification-routing.ts` lines 1-10, with JS truthiness (`!sessionId`,
`!focusedSessionId`) made explicit. -/
def shouldNotifyForSession (status : String)
    (sessionId focusedSessionId : Option String) : Bool :=
  if status != "completed" && status != "error" then false
  else if !(strTruthy sessionId) then false
  else if !(strTruthy focusedSessionId) then true
  else focusedSessionId != sessionId

/-- `shouldMarkHistoryStale(activeSessionId, sessionId, status)` from
`history-sync.ts` lines 3-11.  `activeSessionId` is `string | null`,
`sessionId` is a plain string, `status` the session-status string. -/
def shouldMarkHistoryStale (activeSessionId : Option String)
    (sessionId : String) (status : String) : Bool :=
  if !(strTruthy activeSessionId) then false
  else if activeSessionId == some sessionId then false
  else status == "completed" || status == "error"

/-- The notification-eligibility predicate exactly as claim C4 words it:
terminal status, session id present (non-null), and no focused session or a
focused session different from the event's. -/
def notifyClaimC4 (status : String) (sid focus : Option String) : Prop :=
  (status = "completed" ∨ status = "error") ∧ sid ≠ none ∧
    (focus = none ∨ focus ≠ sid)

/-- The staleness predicate exactly as claim C5 words it: some session is
focused (non-null), the event's session differs from it, and the status is
terminal. -/
def staleClaimC5 (active : Option String) (sid : String) (status : String) : Prop :=
  active ≠ none ∧ active ≠ some sid ∧ (status = "completed" ∨ status = "error")

/-- C4 counterexample: with a present-but-empty session id (`some ""`, which is
non-null) and no focused session, a `"completed"` event does *not* notify —
`!sessionId` in the source treats the empty string as absent — so the claimed
iff fails at this input. -/
theorem shouldNotifyForSession_claim_counterexample :
    ¬ (shouldNotifyForSession "completed" (some "") none = true ↔
        notifyClaimC4 "completed" (some "") none) := by
  intro h
  have : shouldNotifyForSession "completed" (some "") none = true := by
    exact h.mpr (by refine ⟨Or.inl rfl, by simp, Or.inl rfl⟩)
  simp [shouldNotifyForSession, strTruthy] at this

/-- C4 amended: `shouldNotifyForSession` returns `true` iff the status is
`"completed"` or `"error"`, the session id is present and *non-empty*, and
either no session is focused or the focused session differs from the event's
session.  In particular it is `false` for every `"running"` event and whenever
the focused session equals the event's session. -/
theorem shouldNotifyForSession_characterization (status : String)
    (sid focus : Option String) :
    shouldNotifyForSession status sid focus = true ↔
      (status = "completed" ∨ status = "error") ∧
      (∃ s, sid = some s ∧ s ≠ "") ∧
      (focus = none ∨ focus ≠ sid) := by
  unfold shouldNotifyForSession strTruthy
  cases sid with
  | none => simp
  | some s =>
    cases focus with
    | none =>
      by_cases hs : s = "" <;>
        by_cases hc : status = "completed" <;>
          by_cases he : status = "error" <;>
            simp [hs, hc, he]
    | some f =>
      by_cases hs : s = "" <;>
        by_cases hf : f = "" <;>
          by_cases hfs : f = s <;>
            by_cases hc : status = "completed" <;>
              by_cases he : status = "error" <;>
                simp_all

/-- C5 counterexample: with a focused session whose id is the empty string
(`some ""`, which is non-null), a `"completed"` event for a different session
does *not* mark the history stale — `!activeSessionId` in the source treats
the empty string as no focus — so the claimed iff fails at this input. -/
theorem shouldMarkHistoryStale_claim_counterexample :
    ¬ (shouldMarkHistoryStale (some "") "b" "completed" = true ↔
        staleClaimC5 (some "") "b" "completed") := by
  intro h
  have : shouldMarkHistoryStale (some "") "b" "completed" = true := by
    exact h.mpr (by refine ⟨by simp, by simp, Or.inl rfl⟩)
  simp [shouldMarkHistoryStale, strTruthy] at this

/-- C5 amended: `shouldMarkHistoryStale` returns `true` iff a session is
focused with a *non-empty* id, the event's session differs from the focused
one, and the status is `"completed"` or `"error"`.  In particular a
`"running"` event for a background session, and any event for the focused
session, never marks the history stale. -/
theorem shouldMarkHistoryStale_characterization (active : Option String)
    (sid : String) (status : String) :
    shouldMarkHistoryStale active sid status = true ↔
      (∃ a, active = some a ∧ a ≠ "" ∧ a ≠ sid) ∧
      (status = "completed" ∨ status = "error") := by
  unfold shouldMarkHistoryStale strTruthy
  cases active with
  | none => simp
  | some a =>
    by_cases ha : a = "" <;>
      by_cases has : a = sid <;>
        by_cases hc : status = "completed" <;>
          by_cases he : status = "error" <;>
            simp_all

/-- C4 amended-claim witness: a completed event for session `A` while session
`B` is focused does notify. -/
theorem shouldNotifyForSession_characterization_witness :
    shouldNotifyForSession "completed" (some "A") (some "B") = true := by
  rw [shouldNotifyForSession_characterization]
  exact ⟨Or.inl rfl, ⟨"A", rfl, by decide⟩, Or.inr (by decide)⟩

/-- C5 amended-claim witness: an error event for session `B` while session
`A` is focused marks the history stale. -/
theorem shouldMarkHistoryStale_characterization_witness :
    shouldMarkHistoryStale (some "A") "B" "error" = true := by
  rw [shouldMarkHistoryStale_characterization]
  exact ⟨⟨"A", rfl, by decide, by decide⟩, Or.inr rfl⟩

/-! ## Tool-schema filtering

Source: `src/unnamed/part_005` lines 1-24 (`getTools`).  The registered tool
list `ALL_TOOL_DEFINITIONS` is imported from `./tools/index.js`; `getTools` is
parameterized over it here, so the theorems hold for every registered set. -/

/-- An OpenAI-style tool definition; only `function.name` is inspected by
`getTools`, the remaining schema fields are carried opaquely. -/
structure ToolDefinition where
  name : String
  description : String
  parameters : String
deriving DecidableEq

/-- The subset of `ApiSettings` that `getTools` reads.  `zaiApiKey` is a
possibly-absent string (JS-falsy when absent or empty). -/
structure ApiSettings where
  enableMemory : Bool
  enableZaiReader : Bool
  zaiApiKey : Option String

/-- Truthiness of `settings?.enableMemory`. -/
def memoryEnabled : Option ApiSettings → Bool
  | none => false
  | some s => s.enableMemory

/-- Truthiness of `settings?.enableZaiReader`. -/
def zaiReaderEnabled : Option ApiSettings → Bool
  | none => false
  | some s => s.enableZaiReader

/-- Truthiness of `settings?.zaiApiKey`. -/
def zaiKeyTruthy : Option ApiSettings → Bool
  | none => false
  | some s => match s.zaiApiKey with
    | none => false
    | some k => k != ""

/-- `getTools(settings)` from `part_005` lines 10-24: start from the full
registered list, drop `manage_memory` when memory is not enabled, drop
`read_page` when the Z.AI reader is not enabled or no Z.AI key is set. -/
def getTools (allToolDefinitions : List ToolDefinition)
    (settings : Option ApiSettings) : List ToolDefinition :=
  let tools := allToolDefinitions
  let tools := if memoryEnabled settings then tools
    else tools.filter (fun t => t.name != "manage_memory")
  let tools := if zaiReaderEnabled settings && zaiKeyTruthy settings then tools
    else tools.filter (fun t => t.name != "read_page")
  tools

/-- C9: `getTools` is exactly the registered list filtered by configuration:
`manage_memory` survives only when memory is enabled, `read_page` only when
the Z.AI reader is enabled and a key is present, and every other registered
tool definition is kept unchanged (same order, same schema). -/
theorem getTools_filters_disabled_tools (allTools : List ToolDefinition)
    (settings : Option ApiSettings) :
    getTools allTools settings =
      allTools.filter (fun t =>
        (t.name != "manage_memory" || memoryEnabled settings) &&
        (t.name != "read_page" ||
          (zaiReaderEnabled settings && zaiKeyTruthy settings))) ∧
    ∀ t, t ∈ getTools allTools settings ↔
      t ∈ allTools ∧
      (t.name = "manage_memory" → memoryEnabled settings = true) ∧
      (t.name = "read_page" →
        (zaiReaderEnabled settings && zaiKeyTruthy settings) = true) := by
  have hmain : getTools allTools settings =
      allTools.filter (fun t =>
        (t.name != "manage_memory" || memoryEnabled settings) &&
        (t.name != "read_page" ||
          (zaiReaderEnabled settings && zaiKeyTruthy settings))) := by
    unfold getTools
    cases hm : memoryEnabled settings <;>
      cases hz : zaiReaderEnabled settings && zaiKeyTruthy settings <;>
        simp [List.filter_filter, List.filter_eq_self, Bool.and_comm]
  refine ⟨hmain, fun t => ?_⟩
  rw [hmain]
  simp only [List.mem_filter]
  constructor
  · rintro ⟨ht, hcond⟩
    refine ⟨ht, ?_, ?_⟩
    · intro hname
      rcases Bool.and_eq_true .. |>.mp hcond with ⟨h1, -⟩
      rcases Bool.or_eq_true .. |>.mp h1 with h | h
      · exact absurd hname (by simpa using h)
      · exact h
    · intro hname
      rcases Bool.and_eq_true .. |>.mp hcond with ⟨-, h2⟩
      rcases Bool.or_eq_true .. |>.mp h2 with h | h
      · exact absurd hname (by simpa using h)
      · exact h
  · rintro ⟨ht, h1, h2⟩
    refine ⟨ht, ?_⟩
    refine Bool.and_eq_true .. |>.mpr ⟨?_, ?_⟩
    · by_cases hname : t.name = "manage_memory"
      · simp [h1 hname]
      · simp [hname]
    · by_cases hname : t.name = "read_page"
      · simp [h2 hname]
      · simp [hname]

/-- C9 witness: with no settings, both `manage_memory` and `read_page` are
filtered out of a concrete registered list and the remaining tool is kept
unchanged. -/
theorem getTools_filters_disabled_tools_witness :
    getTools [⟨"manage_memory", "m", "p"⟩, ⟨"read_page", "r", "p"⟩,
      ⟨"execute_js", "e", "p"⟩] none = [⟨"execute_js", "e", "p"⟩] := by
  rw [(getTools_filters_disabled_tools [⟨"manage_memory", "m", "p"⟩,
    ⟨"read_page", "r", "p"⟩, ⟨"execute_js", "e", "p"⟩] none).1]
  decide

/-! ## POSIX path resolution

Model of Node's `path.resolve` / `path.normalize` on POSIX paths (the
workspace roots are absolute `/`-separated paths).  `.` and empty segments are
dropped, `..` pops the previous segment (clamped at the root), trailing
separators are removed. -/

/-- Resolve `.`/`..`/empty segments of an absolute path, clamping `..` at the
root. -/
def normSegsFold (segs : List (List Char)) : List (List Char) :=
  segs.foldl (fun stack seg =>
    if seg = [] ∨ seg = ['.'] then stack
    else if seg = ['.', '.'] then stack.dropLast
    else stack ++ [seg]) []

/-- `path.normalize` of an absolute POSIX path given as characters. -/
def normalizeAbsChars (cs : List Char) : List Char :=
  '/' :: List.intercalate ['/'] (normSegsFold (cs.splitOn '/'))

/-- `path.resolve(base, p)` for an absolute `base`: an absolute `p` is
normalized on its own, a relative `p` is joined to `base` first. -/
def resolveChars (base p : List Char) : List Char :=
  match p with
  | '/' :: _ => normalizeAbsChars p
  | _ => normalizeAbsChars (base ++ '/' :: p)

/-- ASCII lower-casing of a character list (JS `toLowerCase` restricted to the
ASCII fragment used by the path checks). -/
def toLowerChars (cs : List Char) : List Char :=
  cs.map Char.toLower

/-! ## QuickJS sandbox file API

Source: `src/unnamed/part_005` lines 32-301 (`executeInQuickJS`).  Each `fs`
shim resolves the script-supplied path against the workspace `cwd` (stripping
one leading `/`, which maps script-absolute paths into the workspace) and then
either throws an access-denied error or performs exactly one host filesystem
access at the resolved path.  The outcome type records which of the two
happens; the host call itself is external to the model. -/

/-- Resolution step shared by all four `fs` shims:
`resolve(cwd, filePath.startsWith('/') ? filePath.slice(1) : filePath)`. -/
def resolveSandboxPath (cwd filePath : String) : String :=
  String.mk (resolveChars cwd.data
    (match filePath.data with
     | '/' :: rest => rest
     | l => l))

/-- What a sandbox `fs` shim does: throw an access-denied error (no host
filesystem access), or perform its host filesystem operation at the resolved
path. -/
inductive SandboxFsResult where
  | denied (msg : String)
  | hostAccess (path : String)
deriving DecidableEq

/-- `fs.readFileSync` shim (`part_005` lines 134-148): resolves, checks
`isPathSafe`, throws access-denied otherwise, then reads from the host. -/
def readFileSyncFn (isPathSafe : String → Bool) (cwd filePath : String) :
    SandboxFsResult :=
  let fullPath := resolveSandboxPath cwd filePath
  if !(isPathSafe fullPath) then
    .denied ("Access denied: " ++ filePath ++ " is outside workspace")
  else
    .hostAccess fullPath

/-- `fs.writeFileSync` shim (`part_005` lines 152-167): same check before the
host write; the written `data` does not influence the outcome. -/
def writeFileSyncFn (isPathSafe : String → Bool) (cwd filePath _data : String) :
    SandboxFsResult :=
  let fullPath := resolveSandboxPath cwd filePath
  if !(isPathSafe fullPath) then
    .denied ("Access denied: " ++ filePath ++ " is outside workspace")
  else
    .hostAccess fullPath

/-- `fs.existsSync` shim (`part_005` lines 171-177): resolves the path and
calls the host `existsSync` directly — there is *no* `isPathSafe` check. -/
def existsSyncFn (_isPathSafe : String → Bool) (cwd filePath : String) :
    SandboxFsResult :=
  let fullPath := resolveSandboxPath cwd filePath
  .hostAccess fullPath

/-- `fs.readdirSync` shim (`part_005` lines 179-199): same check as
`readFileSync` before the host directory read. -/
def readdirSyncFn (isPathSafe : String → Bool) (cwd filePath : String) :
    SandboxFsResult :=
  let fullPath := resolveSandboxPath cwd filePath
  if !(isPathSafe fullPath) then
    .denied ("Access denied: " ++ filePath ++ " is outside workspace")
  else
    .hostAccess fullPath

/-- A concrete sandbox-boundary predicate for the workspace root `/ws`: the
root itself or any path under `/ws/`. -/
def demoPathSafe (p : String) : Bool :=
  p = "/ws" || ['/', 'w', 's', '/'].isPrefixOf p.data

/-- C2: evaluation of the four `fs` shims at the escaping path
`"../../etc/passwd"` in workspace `/ws` (resolved path `/etc/passwd`, outside
the boundary).  `readFileSync`, `writeFileSync` and `readdirSync` throw
access-denied without touching the host; `existsSync` performs the host
existence check at the outside path because its shim never consults
`isPathSafe`. -/
theorem quickjs_fs_existsSync_skips_path_check :
    demoPathSafe "/etc/passwd" = false ∧
    readFileSyncFn demoPathSafe "/ws" "../../etc/passwd" =
      .denied "Access denied: ../../etc/passwd is outside workspace" ∧
    writeFileSyncFn demoPathSafe "/ws" "../../etc/passwd" "x" =
      .denied "Access denied: ../../etc/passwd is outside workspace" ∧
    readdirSyncFn demoPathSafe "/ws" "../../etc/passwd" =
      .denied "Access denied: ../../etc/passwd is outside workspace" ∧
    existsSyncFn demoPathSafe "/ws" "../../etc/passwd" =
      .hostAccess "/etc/passwd" := by
  refine ⟨rfl, rfl, rfl, rfl, rfl⟩

/-! ## QuickJS execution timeout

Source: `src/unnamed/part_005` lines 249-261 (`executeInQuickJS`), and
`src/unnamed/part_004` lines 58-75 (`executeJSTool`).  QuickJS can abort a
running script only through its interrupt handler: the runtime repeatedly
consults the handler during evaluation and aborts iff it returns `true`.
Evaluation is modeled abstractly: a script is its own halting profile
(`selfHalts k` = the script completes within `k` evaluation steps), and
evaluation has terminated within `n` steps iff at some step `k ≤ n` the
handler fired or the script completed. -/

/-- The interrupt handler installed by `executeInQuickJS` (lines 250-252):
`vm.runtime.setInterruptHandler(() => { return false; })` — it always answers
"don't interrupt", independent of elapsed time and of the `timeout`
argument. -/
def quickjsInterruptHandler (_k : Nat) : Bool := false

/-- Whether a QuickJS evaluation with interrupt handler `handler` of a script
with halting profile `selfHalts` has terminated within `n` steps. -/
def evalTerminatedBy (handler : Nat → Bool) (selfHalts : Nat → Bool)
    (n : Nat) : Bool :=
  (List.range (n + 1)).any fun k => handler k || selfHalts k

/-- A non-terminating script such as `while (true) {}`: it never completes on
its own. -/
def infiniteLoopScript (_k : Nat) : Bool := false

/-- `executeJSTool`'s timeout clamping (`part_004` line 62):
`Math.min(args.timeout || 5000, 30000)` with JS-falsy `0`. -/
def executeJSEffectiveTimeout (requested : Option Nat) : Nat :=
  min (match requested with
       | none => 5000
       | some 0 => 5000
       | some v => v) 30000

/-- Termination of `executeInQuickJS(code, cwd, isPathSafe, timeout)` within
`n` evaluation steps: the `timeout` argument is received (line 70) but never
consulted — the only interruption mechanism is `quickjsInterruptHandler`. -/
def executeInQuickJSTerminatedBy (_timeout : Nat) (selfHalts : Nat → Bool)
    (n : Nat) : Bool :=
  evalTerminatedBy quickjsInterruptHandler selfHalts n

/-- C1: for every requested timeout and every step bound `n`, the execution of
an infinite-loop script has not terminated after `n` steps — the interrupt
handler never fires and the timeout argument is unused, so execution is not
bounded by the caller-supplied timeout and no timeout-error result is ever
produced. -/
theorem executeInQuickJS_infinite_loop_never_interrupted
    (requested : Option Nat) (n : Nat) :
    executeInQuickJSTerminatedBy (executeJSEffectiveTimeout requested)
      infiniteLoopScript n = false := by
  simp [executeInQuickJSTerminatedBy, evalTerminatedBy,
    quickjsInterruptHandler, infiniteLoopScript]

/-! ## Workspace-scoped IPC file handlers

Source: `src/src/agent/main.ts`, handlers `list-directory` (lines 154-190) and
`get-image-preview` (lines 337-364).  Both gate the host filesystem access on
a path-containment check; only the check is modeled (the subsequent `readdir`/
`stat` are host calls).  `resolve` of a possibly-relative request is taken
against the process working directory `processCwd`; Unicode NFC normalization
is the identity on the ASCII fragment modeled here. -/

/-- The containment decision of the `list-directory` handler: lower-case the
resolved request, find a session whose (truthy) lower-cased resolved `cwd` is
a *string prefix* of it, and allow when such a session exists (the second
`startsWith` check of lines 179-190 repeats the predicate used by `find`). -/
def listDirectoryAllowed (processCwd : String)
    (sessionCwds : List (Option String)) (dirPath : String) : Bool :=
  let normalizedDirPath := toLowerChars (resolveChars processCwd.data dirPath.data)
  match sessionCwds.find? (fun c =>
      match c with
      | none => false
      | some cwd =>
        if cwd = "" then false
        else (toLowerChars (resolveChars processCwd.data cwd.data)).isPrefixOf
          normalizedDirPath) with
  | none => false
  | some none => false
  | some (some sessionCwd) =>
    (toLowerChars (resolveChars processCwd.data sessionCwd.data)).isPrefixOf
      normalizedDirPath

/-- The containment decision of the `get-image-preview` handler: resolve the
workspace `cwd` and the requested `path` against it, lower-case both only on
Windows, and require the full path to equal the root or to extend it at a
path-separator boundary (`cwdWithSep`). -/
def imagePreviewAllowed (isWindows : Bool) (processCwd cwd path : String) : Bool :=
  let normalizedCwd := resolveChars processCwd.data cwd.data
  let fullPath := resolveChars normalizedCwd path.data
  let nc := if isWindows then toLowerChars normalizedCwd else normalizedCwd
  let fp := if isWindows then toLowerChars fullPath else fullPath
  let cwdWithSep := if nc.getLast? = some '/' then nc else nc ++ ['/']
  fp == nc || cwdWithSep.isPrefixOf fp

/-- The containment predicate as claim C3 words it: the normalized absolute
path equals the normalized root, or extends it at a path-separator
boundary. -/
def descendantAtBoundary (root p : List Char) : Bool :=
  p == root ||
    (if root.getLast? = some '/' then root else root ++ ['/']).isPrefixOf p

/-- C3: the `get-image-preview` check *is* the boundary predicate of the claim
(on both the POSIX and the Windows, case-folded, variants), but the
`list-directory` check is a raw string-prefix test: with session workspace
root `/ws` it accepts the sibling directory `/ws2`, which is not a descendant
of `/ws` at a separator boundary. -/
theorem list_directory_prefix_check_accepts_sibling :
    (listDirectoryAllowed "/" [some "/ws"] "/ws2" = true ∧
      descendantAtBoundary "/ws".data "/ws2".data = false) ∧
    (∀ processCwd cwd path : String,
      imagePreviewAllowed false processCwd cwd path =
        descendantAtBoundary (resolveChars processCwd.data cwd.data)
          (resolveChars (resolveChars processCwd.data cwd.data) path.data)) ∧
    (∀ processCwd cwd path : String,
      imagePreviewAllowed true processCwd cwd path =
        descendantAtBoundary
          (toLowerChars (resolveChars processCwd.data cwd.data))
          (toLowerChars
            (resolveChars (resolveChars processCwd.data cwd.data) path.data))) := by
  refine ⟨⟨rfl, rfl⟩, fun processCwd cwd path => rfl, fun processCwd cwd path => rfl⟩

/-! ## Scheduler descriptor parsing

Source: `src/unnamed/part_002` lines 100-179 (`calculateNextRun`) and lines
46-81 (`handleCreateTask`).  The anchored regular expressions of the source
are implemented as deterministic matchers on the (lower-cased, trimmed)
character list; each matcher is equivalent to its regex because the regexes
are anchored on both sides and their alternatives start with distinct
literals.  JS `Date` arithmetic is modeled on milliseconds-since-epoch with
fixed 86 400 000 ms days (no DST), `setHours(h, m, 0, 0)` setting the time of
day within the current day and `setDate(getDate() + 1)` adding one day. -/

/-- `\d` of JS regexes: the ASCII decimal digits. -/
def isDigitChar (c : Char) : Bool :=
  c = '0' || c = '1' || c = '2' || c = '3' || c = '4' ||
  c = '5' || c = '6' || c = '7' || c = '8' || c = '9'

/-- `parseInt(ds, 10)` on a string of decimal digits. -/
def digitsToNat (ds : List Char) : Nat :=
  ds.foldl (fun acc c => acc * 10 + (c.toNat - 48)) 0

/-- Consume an exact literal prefix, returning the remainder. -/
def stripLit : List Char → List Char → Option (List Char)
  | [], cs => some cs
  | _ :: _, [] => none
  | l :: ls, c :: cs => if c = l then stripLit ls cs else none

/-- `\s+`: require at least one whitespace character and consume the run. -/
def afterRequiredSpaces (cs : List Char) : Option (List Char) :=
  if (cs.takeWhile isJsSpace).isEmpty then none
  else some (cs.dropWhile isJsSpace)

/-- `\s+(\d+)\s*(<unit>)$`: mandatory spaces, one or more digits, optional
spaces, then exactly one of the given unit spellings up to the end of the
string. -/
def matchNumberUnit (units : List (List Char)) (cs : List Char) :
    Option (Nat × List Char) :=
  if (cs.takeWhile isJsSpace).isEmpty then none
  else
    let r1 := cs.dropWhile isJsSpace
    let ds := r1.takeWhile isDigitChar
    if ds.isEmpty then none
    else
      let unit := (r1.dropWhile isDigitChar).dropWhile isJsSpace
      if units.contains unit then some (digitsToNat ds, unit) else none

/-- The unit spellings of `min(?:ute)?s?|hrs?|hours?|days?`. -/
def inUnits : List (List Char) :=
  ["min", "mins", "minute", "minutes", "hr", "hrs", "hour", "hours",
   "day", "days"].map String.data

/-- The unit spellings of `min(?:ute)?s?|hrs?|hours?`. -/
def everyUnits : List (List Char) :=
  ["min", "mins", "minute", "minutes", "hr", "hrs", "hour", "hours"].map
    String.data

/-- `/^in\s+(\d+)\s*(min(?:ute)?s?|hrs?|hours?|days?)$/`. -/
def matchInPat (cs : List Char) : Option (Nat × List Char) :=
  match stripLit ['i', 'n'] cs with
  | none => none
  | some rest => matchNumberUnit inUnits rest

/-- `/^every\s+(\d+)\s*(min(?:ute)?s?|hrs?|hours?)$/`. -/
def matchEveryPat (cs : List Char) : Option (Nat × List Char) :=
  match stripLit ['e', 'v', 'e', 'r', 'y'] cs with
  | none => none
  | some rest => matchNumberUnit everyUnits rest

/-- `(\d{1,2}):(\d{2})$`: one or two digits, a colon, exactly two digits, end
of string. -/
def matchHM (cs : List Char) : Option (Nat × Nat) :=
  let ds := cs.takeWhile isDigitChar
  if ds.isEmpty ∨ 2 < ds.length then none
  else
    match cs.dropWhile isDigitChar with
    | ':' :: a :: b :: [] =>
      if isDigitChar a && isDigitChar b then
        some (digitsToNat ds, digitsToNat [a, b])
      else none
    | _ => none

/-- `/^at\s+(\d{1,2}):(\d{2})$/`. -/
def matchAtPat (cs : List Char) : Option (Nat × Nat) :=
  match stripLit ['a', 't'] cs with
  | none => none
  | some rest =>
    match afterRequiredSpaces rest with
    | none => none
    | some r => matchHM r

/-- `/^tomorrow\s+at\s+(\d{1,2}):(\d{2})$/`. -/
def matchTomorrowPat (cs : List Char) : Option (Nat × Nat) :=
  match stripLit ['t', 'o', 'm', 'o', 'r', 'r', 'o', 'w'] cs with
  | none => none
  | some rest =>
    match afterRequiredSpaces rest with
    | none => none
    | some r2 =>
      match stripLit ['a', 't'] r2 with
      | none => none
      | some r3 =>
        match afterRequiredSpaces r3 with
        | none => none
        | some r4 => matchHM r4

/-- `/^(?:every\s+day|daily)\s+at\s+(\d{1,2}):(\d{2})$/`. -/
def matchDailyPat (cs : List Char) : Option (Nat × Nat) :=
  match (match stripLit ['e', 'v', 'e', 'r', 'y'] cs with
         | some rest =>
           (match afterRequiredSpaces rest with
            | some r2 => stripLit ['d', 'a', 'y'] r2
            | none => none)
         | none => stripLit ['d', 'a', 'i', 'l', 'y'] cs) with
  | none => none
  | some r2 =>
    match afterRequiredSpaces r2 with
    | none => none
    | some r3 =>
      match stripLit ['a', 't'] r3 with
      | none => none
      | some r4 =>
        match afterRequiredSpaces r4 with
        | none => none
        | some r5 => matchHM r5

/-- One day in milliseconds. -/
def dayMs : Nat := 86400000

/-- `target.setHours(h, m, 0, 0)` on a `Date` holding `now`:
the start of `now`'s day plus the requested time of day (JS-style overflow of
large `h` into subsequent days included). -/
def setTimeOfDay (now h m : Nat) : Nat :=
  now / dayMs * dayMs + (h * 3600000 + m * 60000)

/-- The `inMatch` branch (`part_002` lines 105-117): `now` plus the stated
offset; the unit is dispatched on its prefix exactly as in the source. -/
def tryIn (now : Nat) (cs : List Char) : Option Nat :=
  match matchInPat cs with
  | none => none
  | some (v, unit) =>
    if ['m', 'i', 'n'].isPrefixOf unit then some (now + v * 60000)
    else if ['h'].isPrefixOf unit then some (now + v * 3600000)
    else if ['d'].isPrefixOf unit then some (now + v * 86400000)
    else none

/-- The `atMatch` branch (lines 119-134): today at the given time, or
tomorrow if that instant is not in the future. -/
def tryAt (now : Nat) (cs : List Char) : Option Nat :=
  match matchAtPat cs with
  | none => none
  | some (h, m) =>
    let target := setTimeOfDay now h m
    some (if target ≤ now then target + dayMs else target)

/-- The `tomorrowMatch` branch (lines 136-147): next day at the given time,
unconditionally. -/
def tryTomorrow (now : Nat) (cs : List Char) : Option Nat :=
  match matchTomorrowPat cs with
  | none => none
  | some (h, m) => some (setTimeOfDay now h m + dayMs)

/-- The `dailyMatch` branch (lines 149-163): same computation as the `at`
branch. -/
def tryDaily (now : Nat) (cs : List Char) : Option Nat :=
  match matchDailyPat cs with
  | none => none
  | some (h, m) =>
    let target := setTimeOfDay now h m
    some (if target ≤ now then target + dayMs else target)

/-- The `everyMatch` branch (lines 165-176): `now` plus the stated
interval. -/
def tryEvery (now : Nat) (cs : List Char) : Option Nat :=
  match matchEveryPat cs with
  | none => none
  | some (v, unit) =>
    if ['m', 'i', 'n'].isPrefixOf unit then some (now + v * 60000)
    else if ['h'].isPrefixOf unit then some (now + v * 3600000)
    else none

/-- `scheduleStr.toLowerCase().trim()` (line 102). -/
def normalizeScheduleStr (s : String) : List Char :=
  trimChars (s.data.map Char.toLower)

/-- The branch cascade of `calculateNextRun`, in source order, on the
normalized descriptor. -/
def calcOnNormalized (now : Nat) (schedule : List Char) : Option Nat :=
  match tryIn now schedule with
  | some t => some t
  | none =>
    match tryAt now schedule with
    | some t => some t
    | none =>
      match tryTomorrow now schedule with
      | some t => some t
      | none =>
        match tryDaily now schedule with
        | some t => some t
        | none => tryEvery now schedule

/-- `calculateNextRun(scheduleStr)` from `part_002` lines 100-179, with the
evaluation instant `now` made explicit. -/
def calculateNextRun (now : Nat) (scheduleStr : String) : Option Nat :=
  calcOnNormalized now (normalizeScheduleStr scheduleStr)

/-! ### Helper lemmas about digit characters and whitespace -/

theorem isDigitChar_cases (c : Char) (h : isDigitChar c = true) :
    c = '0' ∨ c = '1' ∨ c = '2' ∨ c = '3' ∨ c = '4' ∨
    c = '5' ∨ c = '6' ∨ c = '7' ∨ c = '8' ∨ c = '9' := by
  simpa [isDigitChar, or_assoc] using h

theorem digitChar_props (c : Char) (h : isDigitChar c = true) :
    isJsSpace c = false ∧ Char.toLower c = c ∧ c ≠ 'd' := by
  rcases isDigitChar_cases c h with rfl | rfl | rfl | rfl | rfl | rfl | rfl | rfl | rfl | rfl <;>
    exact ⟨rfl, rfl, by decide⟩

theorem takeWhile_append_all {p : Char → Bool} {l₁ l₂ : List Char}
    (h : ∀ c ∈ l₁, p c = true) :
    (l₁ ++ l₂).takeWhile p = l₁ ++ l₂.takeWhile p := by
  induction l₁ with
  | nil => simp
  | cons a l ih =>
    simp only [List.cons_append, List.takeWhile_cons, h a (List.mem_cons_self a l),
      if_true]
    rw [ih fun c hc => h c (List.mem_cons_of_mem a hc)]

theorem dropWhile_append_all {p : Char → Bool} {l₁ l₂ : List Char}
    (h : ∀ c ∈ l₁, p c = true) :
    (l₁ ++ l₂).dropWhile p = l₂.dropWhile p := by
  induction l₁ with
  | nil => simp
  | cons a l ih =>
    simp only [List.cons_append, List.dropWhile_cons, h a (List.mem_cons_self a l)]
    exact ih fun c hc => h c (List.mem_cons_of_mem a hc)

theorem map_toLower_digits (l : List Char) (h : ∀ c ∈ l, isDigitChar c = true) :
    l.map Char.toLower = l := by
  induction l with
  | nil => rfl
  | cons a l ih =>
    rw [List.map_cons, (digitChar_props a (h a (List.mem_cons_self a l))).2.1,
      ih fun c hc => h c (List.mem_cons_of_mem a hc)]

theorem trimChars_eq_self_of_ends (l : List Char)
    (h1 : ∀ c ∈ l.head?, isJsSpace c = false)
    (h2 : ∀ c ∈ l.getLast?, isJsSpace c = false) :
    trimChars l = l := by
  unfold trimChars
  have hd : l.dropWhile isJsSpace = l := by
    cases l with
    | nil => rfl
    | cons a l => simp [List.dropWhile_cons, h1 a rfl]
  rw [hd]
  have hr : l.reverse.dropWhile isJsSpace = l.reverse := by
    cases hrev : l.reverse with
    | nil => rfl
    | cons a r =>
      have ha : a ∈ l.getLast? := by
        rw [← List.head?_reverse, hrev]; rfl
      simp [List.dropWhile_cons, h2 a ha]
  rw [hr, List.reverse_reverse]

/-- Evaluation of the `\s+(\d+)\s*(<unit>)$` matcher on a space, a non-empty
digit block and a remainder that starts with no digits. -/
theorem matchNumberUnit_eval (units : List (List Char)) (d : Char)
    (ds' suf : List Char) (hd : isDigitChar d = true)
    (hds : ∀ c ∈ ds', isDigitChar c = true)
    (h1 : suf.takeWhile isDigitChar = [])
    (h2 : suf.dropWhile isDigitChar = suf) :
    matchNumberUnit units (' ' :: (d :: (ds' ++ suf))) =
      if units.contains (suf.dropWhile isJsSpace) then
        some (digitsToNat (d :: ds'), suf.dropWhile isJsSpace)
      else none := by
  have hspd : isJsSpace d = false := (digitChar_props d hd).1
  have ha : ((' ' :: (d :: (ds' ++ suf))).takeWhile isJsSpace).isEmpty = false := by
    simp [List.takeWhile_cons, show isJsSpace ' ' = true from rfl]
  have hb : (' ' :: (d :: (ds' ++ suf))).dropWhile isJsSpace = d :: (ds' ++ suf) := by
    simp [List.dropWhile_cons, hspd, show isJsSpace ' ' = true from rfl]
  have htk : (d :: (ds' ++ suf)).takeWhile isDigitChar = d :: ds' := by
    simp only [List.takeWhile_cons, hd, if_true]
    rw [takeWhile_append_all hds, h1, List.append_nil]
  have hdr : (d :: (ds' ++ suf)).dropWhile isDigitChar = suf := by
    simp only [List.dropWhile_cons, hd, if_true]
    rw [dropWhile_append_all hds, h2]
  simp [matchNumberUnit, ha, hb, htk, hdr]

/-- On a normalized descriptor of the shape `every <digit>...`, the first four
branches of `calculateNextRun` all fail, leaving the `everyMatch` branch. -/
theorem calcOnNormalized_every_head (now : Nat) (d : Char) (ds' : List Char)
    (hd : isDigitChar d = true) :
    calcOnNormalized now ('e' :: 'v' :: 'e' :: 'r' :: 'y' :: ' ' :: (d :: ds')) =
      tryEvery now ('e' :: 'v' :: 'e' :: 'r' :: 'y' :: ' ' :: (d :: ds')) := by
  have hspd : isJsSpace d = false := (digitChar_props d hd).1
  have h1 : tryIn now ('e' :: 'v' :: 'e' :: 'r' :: 'y' :: ' ' :: (d :: ds')) = none := rfl
  have h2 : tryAt now ('e' :: 'v' :: 'e' :: 'r' :: 'y' :: ' ' :: (d :: ds')) = none := rfl
  have h3 : tryTomorrow now ('e' :: 'v' :: 'e' :: 'r' :: 'y' :: ' ' :: (d :: ds')) = none := rfl
  have h4 : tryDaily now ('e' :: 'v' :: 'e' :: 'r' :: 'y' :: ' ' :: (d :: ds')) = none := by
    have e2 : afterRequiredSpaces (' ' :: (d :: ds')) = some (d :: ds') := by
      simp [afterRequiredSpaces, List.takeWhile_cons, List.dropWhile_cons, hspd,
        show isJsSpace ' ' = true from rfl]
    have e3 : stripLit ['d', 'a', 'y'] (d :: ds') = none := by
      simp [stripLit, (digitChar_props d hd).2.2]
    simp [tryDaily, matchDailyPat, e2, e3,
      show stripLit ['e', 'v', 'e', 'r', 'y']
        ('e' :: 'v' :: 'e' :: 'r' :: 'y' :: ' ' :: (d :: ds')) =
        some (' ' :: (d :: ds')) from rfl]
  simp only [calcOnNormalized, h1, h2, h3, h4]

/-- Normalization is the identity on `every <digits> <unit>` descriptors built
from lower-case letters and digits. -/
theorem normalizeScheduleStr_every (d : Char) (ds' suf : List Char)
    (hd : isDigitChar d = true) (hds : ∀ c ∈ ds', isDigitChar c = true)
    (hsuf_lower : suf.map Char.toLower = suf)
    (hsuf_ne : suf ≠ [])
    (hsuf_last : ∀ c ∈ suf.getLast?, isJsSpace c = false) :
    normalizeScheduleStr
        (String.mk ('e' :: 'v' :: 'e' :: 'r' :: 'y' :: ' ' :: (d :: (ds' ++ suf)))) =
      'e' :: 'v' :: 'e' :: 'r' :: 'y' :: ' ' :: (d :: (ds' ++ suf)) := by
  unfold normalizeScheduleStr
  have hlow : ('e' :: 'v' :: 'e' :: 'r' :: 'y' :: ' ' :: (d :: (ds' ++ suf))).map
      Char.toLower = 'e' :: 'v' :: 'e' :: 'r' :: 'y' :: ' ' :: (d :: (ds' ++ suf)) := by
    simp only [List.map_cons, List.map_append]
    rw [(digitChar_props d hd).2.1, map_toLower_digits ds' hds, hsuf_lower]
    rfl
  rw [show (String.mk ('e' :: 'v' :: 'e' :: 'r' :: 'y' :: ' ' :: (d :: (ds' ++ suf)))).data =
      'e' :: 'v' :: 'e' :: 'r' :: 'y' :: ' ' :: (d :: (ds' ++ suf)) from rfl, hlow]
  apply trimChars_eq_self_of_ends
  · intro c hc
    obtain rfl : c = 'e' := by simpa using hc.symm
    rfl
  · intro c hc
    have : ('e' :: 'v' :: 'e' :: 'r' :: 'y' :: ' ' :: (d :: (ds' ++ suf))).getLast? =
        suf.getLast? := by
      rw [show 'e' :: 'v' :: 'e' :: 'r' :: 'y' :: ' ' :: (d :: (ds' ++ suf)) =
        ('e' :: 'v' :: 'e' :: 'r' :: 'y' :: ' ' :: (d :: ds')) ++ suf by simp,
        List.getLast?_append_of_ne_nil _ hsuf_ne]
    rw [this] at hc
    exact hsuf_last c hc

/-- A scheduled task as assembled by `handleCreateTask` (`part_002` lines
59-68); `createdAt`/`updatedAt` are added downstream and omitted. -/
structure ScheduledTask where
  id : String
  title : String
  prompt : Option String
  schedule : String
  nextRun : Nat
  isRecurring : Bool
  notifyBefore : Option Nat
  enabled : Bool
deriving DecidableEq

/-- What `handleCreateTask` does: return silently (empty title/schedule),
reject with the `"Invalid schedule format"` alert, or emit the
`scheduler.task.create` event carrying the assembled task. -/
inductive CreateTaskOutcome where
  | ignored
  | invalidSchedule
  | created (task : ScheduledTask)
deriving DecidableEq

/-- JS `s.startsWith(pre)`. -/
def startsWithLit (pre s : String) : Bool :=
  pre.data.isPrefixOf s.data

/-- `handleCreateTask` from `part_002` lines 46-81.  Field order of the task:
id, trimmed title, trimmed prompt (or absent), raw schedule string, next run,
recurring flag (`schedule.startsWith("every") || schedule.startsWith("daily")`
on the raw string), notify-before, enabled.  JS `!nextRun` is also true for a
zero timestamp, hence the extra `nextRun = 0` rejection. -/
def handleCreateTask (now : Nat) (title prompt schedule : String)
    (notifyBefore : Option Nat) (id : String) : CreateTaskOutcome :=
  if jsTrim title = "" ∨ jsTrim schedule = "" then .ignored
  else
    match calculateNextRun now schedule with
    | none => .invalidSchedule
    | some nextRun =>
      if nextRun = 0 then .invalidSchedule
      else .created ⟨id, jsTrim title,
        (if jsTrim prompt = "" then none else some (jsTrim prompt)),
        schedule, nextRun,
        startsWithLit "every" schedule || startsWithLit "daily" schedule,
        notifyBefore, true⟩

/-- The descriptor grammar: a string matches some form iff one of the five
anchored patterns matches its normalized (lower-cased, trimmed) text. -/
def matchesNoScheduleForm (s : String) : Prop :=
  matchInPat (normalizeScheduleStr s) = none ∧
  matchAtPat (normalizeScheduleStr s) = none ∧
  matchTomorrowPat (normalizeScheduleStr s) = none ∧
  matchDailyPat (normalizeScheduleStr s) = none ∧
  matchEveryPat (normalizeScheduleStr s) = none

/-- C6: evaluating `every <N> minutes` (for any non-empty digit string `N`)
at instant `t` yields `t` plus `N` minutes; the same holds at any other
instant `tFire` (so re-evaluating the descriptor when a recurring task fires
yields firing-time-plus-interval, not a drift-corrected value), `every <N>
hours` yields `t` plus `N` hours, and in particular `"every 30 minutes"`
evaluated at `t` yields `t + 30` minutes. -/
theorem calculateNextRun_every_interval (t tFire : Nat) (d : Char)
    (ds' : List Char) (hd : isDigitChar d = true)
    (hds : ∀ c ∈ ds', isDigitChar c = true) :
    calculateNextRun t
        (String.mk ('e' :: 'v' :: 'e' :: 'r' :: 'y' :: ' ' ::
          (d :: (ds' ++ " minutes".data)))) =
      some (t + digitsToNat (d :: ds') * 60000) ∧
    calculateNextRun tFire
        (String.mk ('e' :: 'v' :: 'e' :: 'r' :: 'y' :: ' ' ::
          (d :: (ds' ++ " minutes".data)))) =
      some (tFire + digitsToNat (d :: ds') * 60000) ∧
    calculateNextRun t
        (String.mk ('e' :: 'v' :: 'e' :: 'r' :: 'y' :: ' ' ::
          (d :: (ds' ++ " hours".data)))) =
      some (t + digitsToNat (d :: ds') * 3600000) ∧
    calculateNextRun t "every 30 minutes" = some (t + 30 * 60000) := by
  have hmin : ∀ now : Nat,
      calculateNextRun now
          (String.mk ('e' :: 'v' :: 'e' :: 'r' :: 'y' :: ' ' ::
            (d :: (ds' ++ " minutes".data)))) =
        some (now + digitsToNat (d :: ds') * 60000) := by
    intro now
    unfold calculateNextRun
    rw [normalizeScheduleStr_every d ds' " minutes".data hd hds rfl (by decide)
      (by decide)]
    rw [calcOnNormalized_every_head now d (ds' ++ " minutes".data) hd]
    unfold tryEvery matchEveryPat
    simp only [show stripLit ['e', 'v', 'e', 'r', 'y']
        ('e' :: 'v' :: 'e' :: 'r' :: 'y' :: ' ' :: (d :: (ds' ++ " minutes".data))) =
        some (' ' :: (d :: (ds' ++ " minutes".data))) from rfl]
    rw [matchNumberUnit_eval everyUnits d ds' " minutes".data hd hds rfl rfl]
    rfl
  have hhr : calculateNextRun t
      (String.mk ('e' :: 'v' :: 'e' :: 'r' :: 'y' :: ' ' ::
        (d :: (ds' ++ " hours".data)))) =
      some (t + digitsToNat (d :: ds') * 3600000) := by
    unfold calculateNextRun
    rw [normalizeScheduleStr_every d ds' " hours".data hd hds rfl (by decide)
      (by decide)]
    rw [calcOnNormalized_every_head t d (ds' ++ " hours".data) hd]
    unfold tryEvery matchEveryPat
    simp only [show stripLit ['e', 'v', 'e', 'r', 'y']
        ('e' :: 'v' :: 'e' :: 'r' :: 'y' :: ' ' :: (d :: (ds' ++ " hours".data))) =
        some (' ' :: (d :: (ds' ++ " hours".data))) from rfl]
    rw [matchNumberUnit_eval everyUnits d ds' " hours".data hd hds rfl rfl]
    rfl
  exact ⟨hmin t, hmin tFire, hhr, rfl⟩

/-- C6 witness: `"every 30 minutes"` evaluated at instant `0` yields
`0 + 30 * 60000`. -/
theorem calculateNextRun_every_interval_witness :
    calculateNextRun 0 "every 30 minutes" = some (0 + 30 * 60000) :=
  (calculateNextRun_every_interval 0 1 '3' ['0'] (by decide) (by decide)).2.2.2

/-- C7: `"daily at 10:00"` and `"every day at 10:00"` evaluated at 09:00 of
any day yield that day's 10:00, and evaluated at 11:00 yield the next day's
10:00 — the next occurrence of the stated time of day. -/
theorem calculateNextRun_daily_next_occurrence (day : Nat) :
    calculateNextRun (day * 86400000 + 9 * 3600000) "daily at 10:00" =
      some (day * 86400000 + 10 * 3600000) ∧
    calculateNextRun (day * 86400000 + 11 * 3600000) "daily at 10:00" =
      some ((day + 1) * 86400000 + 10 * 3600000) ∧
    calculateNextRun (day * 86400000 + 9 * 3600000) "every day at 10:00" =
      some (day * 86400000 + 10 * 3600000) ∧
    calculateNextRun (day * 86400000 + 11 * 3600000) "every day at 10:00" =
      some ((day + 1) * 86400000 + 10 * 3600000) := by
  have hred : ∀ now : Nat, calculateNextRun now "daily at 10:00" =
      some (if now / 86400000 * 86400000 + 36000000 ≤ now
            then now / 86400000 * 86400000 + 36000000 + 86400000
            else now / 86400000 * 86400000 + 36000000) := fun _ => rfl
  have hred2 : ∀ now : Nat, calculateNextRun now "every day at 10:00" =
      some (if now / 86400000 * 86400000 + 36000000 ≤ now
            then now / 86400000 * 86400000 + 36000000 + 86400000
            else now / 86400000 * 86400000 + 36000000) := fun _ => rfl
  have hdiv9 : (day * 86400000 + 9 * 3600000) / 86400000 = day := by omega
  have hdiv11 : (day * 86400000 + 11 * 3600000) / 86400000 = day := by omega
  refine ⟨?_, ?_, ?_, ?_⟩
  · rw [hred, hdiv9, if_neg (by omega)]
  · rw [hred, hdiv11, if_pos (by omega)]
    simp only [Option.some.injEq]; omega
  · rw [hred2, hdiv9, if_neg (by omega)]
  · rw [hred2, hdiv11, if_pos (by omega)]
    simp only [Option.some.injEq]; omega

/-- C8: a descriptor matching none of the five grammar forms makes
`calculateNextRun` return no timestamp, and `handleCreateTask` (for a
non-empty title and non-empty schedule text) rejects the creation with the
validation error before any `scheduler.task.create` event is assembled — the
task never enters the schedule. -/
theorem calculateNextRun_unparseable_rejected (now : Nat)
    (title prompt schedule id : String) (notifyBefore : Option Nat)
    (hforms : matchesNoScheduleForm schedule)
    (htitle : jsTrim title ≠ "") (hsched : jsTrim schedule ≠ "") :
    calculateNextRun now schedule = none ∧
    handleCreateTask now title prompt schedule notifyBefore id =
      .invalidSchedule := by
  obtain ⟨h1, h2, h3, h4, h5⟩ := hforms
  have hcalc : calculateNextRun now schedule = none := by
    have t1 : tryIn now (normalizeScheduleStr schedule) = none := by
      simp [tryIn, h1]
    have t2 : tryAt now (normalizeScheduleStr schedule) = none := by
      simp [tryAt, h2]
    have t3 : tryTomorrow now (normalizeScheduleStr schedule) = none := by
      simp [tryTomorrow, h3]
    have t4 : tryDaily now (normalizeScheduleStr schedule) = none := by
      simp [tryDaily, h4]
    have t5 : tryEvery now (normalizeScheduleStr schedule) = none := by
      simp [tryEvery, h5]
    simp [calculateNextRun, calcOnNormalized, t1, t2, t3, t4, t5]
  refine ⟨hcalc, ?_⟩
  unfold handleCreateTask
  rw [if_neg (not_or.mpr ⟨htitle, hsched⟩), hcalc]

/-- C8 witness: the descriptor `"sometime soon"` matches no grammar form, is
given no timestamp, and task creation is rejected. -/
theorem calculateNextRun_unparseable_rejected_witness :
    calculateNextRun 0 "sometime soon" = none ∧
    handleCreateTask 0 "x" "" "sometime soon" none "t1" =
      .invalidSchedule :=
  calculateNextRun_unparseable_rejected 0 "x" "" "sometime soon" "t1" none
    ⟨rfl, rfl, rfl, rfl, rfl⟩ (by decide) (by decide)

/-! ## Notification body preview

Source: `src/src/electron/libs/notification-preview.ts` lines 40-53
(`normalizeResponseText`, `truncateResponseText`, `buildNotificationBody`),
with `BODY_LIMIT = 140` and `ELLIPSIS = "..."`. -/

/-- `text.replace(/\s+/g, " ")`: every maximal whitespace run becomes a single
space.  The boolean tracks whether the previous character belonged to a run
already replaced. -/
def collapseAux : Bool → List Char → List Char
  | _, [] => []
  | prevSpace, c :: cs =>
    if isJsSpace c then
      if prevSpace then collapseAux true cs
      else ' ' :: collapseAux true cs
    else c :: collapseAux false cs

/-- `text.replace(/\s+/g, " ")` on a character list. -/
def collapseWs (cs : List Char) : List Char :=
  collapseAux false cs

/-- `normalizeResponseText(text)`: collapse whitespace runs, then trim. -/
def normalizeResponseText (s : String) : String :=
  String.mk (trimChars (collapseWs s.data))

/-- `truncateResponseText(text, limit)`: unchanged when within the limit,
otherwise the first `limit - 3` characters, right-trimmed, plus `"..."`
(`Math.max(0, limit - 3)` is truncated `Nat` subtraction). -/
def truncateResponseText (s : String) (limit : Nat) : String :=
  if s.length ≤ limit then s
  else String.mk (trimEndChars (s.data.take (limit - 3))) ++ "..."

/-- `buildNotificationBody(rawText)`: empty on JS-falsy input, otherwise the
normalized text truncated to the 140-character body limit. -/
def buildNotificationBody : Option String → String
  | none => ""
  | some s => if s = "" then "" else truncateResponseText (normalizeResponseText s) 140

/-- Whitespace-normalized text: every whitespace character is a plain space,
no two spaces are adjacent, and the text neither starts nor ends with
whitespace. -/
def wsNormalizedChars (cs : List Char) : Prop :=
  (∀ c ∈ cs, isJsSpace c = true → c = ' ') ∧
  cs.Chain' (fun a b => ¬(a = ' ' ∧ b = ' ')) ∧
  (∀ c ∈ cs.head?, isJsSpace c = false) ∧
  (∀ c ∈ cs.getLast?, isJsSpace c = false)

theorem collapseAux_space_eq (b : Bool) (cs : List Char) :
    ∀ c ∈ collapseAux b cs, isJsSpace c = true → c = ' ' := by
  induction cs generalizing b with
  | nil => intro c hc; cases hc
  | cons a l ih =>
    intro c hc hsp
    by_cases ha : isJsSpace a = true
    · cases b with
      | true =>
        rw [show collapseAux true (a :: l) = collapseAux true l by
          simp [collapseAux, ha]] at hc
        exact ih true c hc hsp
      | false =>
        rw [show collapseAux false (a :: l) = ' ' :: collapseAux true l by
          simp [collapseAux, ha]] at hc
        rcases List.mem_cons.mp hc with rfl | hc
        · rfl
        · exact ih true c hc hsp
    · rw [show collapseAux b (a :: l) = a :: collapseAux false l by
        simp [collapseAux, ha]] at hc
      rcases List.mem_cons.mp hc with rfl | hc
      · exact absurd hsp ha
      · exact ih false c hc hsp

theorem collapseAux_true_head (cs : List Char) :
    ∀ c ∈ (collapseAux true cs).head?, isJsSpace c = false := by
  induction cs with
  | nil => intro c hc; cases hc
  | cons a l ih =>
    intro c hc
    by_cases ha : isJsSpace a = true
    · rw [show collapseAux true (a :: l) = collapseAux true l by
        simp [collapseAux, ha]] at hc
      exact ih c hc
    · rw [show collapseAux true (a :: l) = a :: collapseAux false l by
        simp [collapseAux, ha]] at hc
      obtain rfl : c = a := by simpa using hc.symm
      simpa using ha

theorem collapseAux_chain (b : Bool) (cs : List Char) :
    (collapseAux b cs).Chain' (fun x y => ¬(x = ' ' ∧ y = ' ')) := by
  induction cs generalizing b with
  | nil => simp [collapseAux]
  | cons a l ih =>
    by_cases ha : isJsSpace a = true
    · cases b with
      | true =>
        rw [show collapseAux true (a :: l) = collapseAux true l by
          simp [collapseAux, ha]]
        exact ih true
      | false =>
        rw [show collapseAux false (a :: l) = ' ' :: collapseAux true l by
          simp [collapseAux, ha]]
        refine List.chain'_cons'.mpr ⟨?_, ih true⟩
        intro y hy hcontra
        have := collapseAux_true_head l y hy
        rw [hcontra.2] at this
        simp [isJsSpace] at this
    · rw [show collapseAux b (a :: l) = a :: collapseAux false l by
        simp [collapseAux, ha]]
      refine List.chain'_cons'.mpr ⟨?_, ih false⟩
      intro y hy hcontra
      rw [hcontra.1] at ha
      simp [isJsSpace] at ha

theorem head?_dropWhile_prop (p : Char → Bool) (l : List Char) :
    ∀ c ∈ (l.dropWhile p).head?, p c = false := by
  induction l with
  | nil => intro c hc; cases hc
  | cons a l ih =>
    intro c hc
    by_cases ha : p a = true
    · rw [List.dropWhile_cons, if_pos ha] at hc
      exact ih c hc
    · rw [List.dropWhile_cons, if_neg ha] at hc
      obtain rfl : c = a := by simpa using hc.symm
      simpa using ha

theorem trimChars_sublist (cs : List Char) : List.Sublist (trimChars cs) cs := by
  unfold trimChars
  have h1 : List.Sublist (cs.dropWhile isJsSpace) cs :=
    (List.dropWhile_suffix _).sublist
  have h2 : List.Sublist ((cs.dropWhile isJsSpace).reverse.dropWhile isJsSpace)
      (cs.dropWhile isJsSpace).reverse := (List.dropWhile_suffix _).sublist
  have h3 := h2.reverse
  rw [List.reverse_reverse] at h3
  exact h3.trans h1

theorem trimChars_chain' (cs : List Char)
    (h : cs.Chain' (fun x y => ¬(x = ' ' ∧ y = ' '))) :
    (trimChars cs).Chain' (fun x y => ¬(x = ' ' ∧ y = ' ')) := by
  unfold trimChars
  have h1 : (cs.dropWhile isJsSpace).Chain' (fun x y => ¬(x = ' ' ∧ y = ' ')) :=
    h.infix (List.dropWhile_suffix _).isInfix
  have h2 : ((cs.dropWhile isJsSpace).reverse).Chain'
      (flip fun x y => ¬(x = ' ' ∧ y = ' ')) := by
    rw [List.chain'_reverse]
    exact h1
  have h3 : ((cs.dropWhile isJsSpace).reverse.dropWhile isJsSpace).Chain'
      (flip fun x y => ¬(x = ' ' ∧ y = ' ')) :=
    h2.infix (List.dropWhile_suffix _).isInfix
  rw [List.chain'_reverse]
  exact h3

theorem trimChars_head (cs : List Char) :
    ∀ c ∈ (trimChars cs).head?, isJsSpace c = false := by
  intro c hc
  unfold trimChars at hc
  rw [List.head?_reverse] at hc
  rcases List.dropWhile_suffix (l := (cs.dropWhile isJsSpace).reverse) isJsSpace
    with ⟨t, ht⟩
  by_cases hne : (cs.dropWhile isJsSpace).reverse.dropWhile isJsSpace = []
  · rw [hne] at hc; cases hc
  · have hsame : (t ++ (cs.dropWhile isJsSpace).reverse.dropWhile isJsSpace).getLast? =
        ((cs.dropWhile isJsSpace).reverse.dropWhile isJsSpace).getLast? :=
      List.getLast?_append_of_ne_nil _ hne
    rw [← hsame, ht, List.getLast?_reverse] at hc
    exact head?_dropWhile_prop _ _ c hc

theorem trimChars_last (cs : List Char) :
    ∀ c ∈ (trimChars cs).getLast?, isJsSpace c = false := by
  intro c hc
  unfold trimChars at hc
  rw [List.getLast?_reverse] at hc
  exact head?_dropWhile_prop _ _ c hc

theorem trimEndChars_length_le (l : List Char) :
    (trimEndChars l).length ≤ l.length := by
  unfold trimEndChars
  calc (l.reverse.dropWhile isJsSpace).reverse.length
      = (l.reverse.dropWhile isJsSpace).length := List.length_reverse _
    _ ≤ l.reverse.length := (List.dropWhile_suffix _).sublist.length_le
    _ = l.length := List.length_reverse _

theorem mk_append_ellipsis_length (l : List Char) :
    (String.mk l ++ "...").length = l.length + 3 := by
  show (l ++ "...".data).length = l.length + 3
  rw [List.length_append]
  rfl

/-- C10: `buildNotificationBody` never exceeds the 140-character body limit;
null and empty inputs yield the empty string; any other input is
whitespace-normalized (runs collapsed to single spaces, ends trimmed) and is
returned unchanged when within the limit, else cut to 137 characters,
right-trimmed and suffixed with `"..."`. -/
theorem buildNotificationBody_spec (raw : Option String) :
    (buildNotificationBody raw).length ≤ 140 ∧
    (buildNotificationBody none = "" ∧ buildNotificationBody (some "") = "") ∧
    (∀ s : String, raw = some s → s ≠ "" →
      wsNormalizedChars (normalizeResponseText s).data ∧
      ((normalizeResponseText s).length ≤ 140 →
        buildNotificationBody raw = normalizeResponseText s) ∧
      (140 < (normalizeResponseText s).length →
        buildNotificationBody raw =
          String.mk (trimEndChars ((normalizeResponseText s).data.take 137)) ++
            "...")) := by
  have hbody : ∀ s : String, s ≠ "" →
      buildNotificationBody (some s) =
        truncateResponseText (normalizeResponseText s) 140 := by
    intro s hs
    simp [buildNotificationBody, hs]
  have htrunclen : ∀ s : String,
      (truncateResponseText s 140).length ≤ max s.length 140 := by
    intro s
    unfold truncateResponseText
    by_cases h : s.length ≤ 140
    · rw [if_pos h]; exact le_max_left _ _
    · rw [if_neg h, mk_append_ellipsis_length]
      have h1 : (trimEndChars (s.data.take (140 - 3))).length ≤
          (s.data.take (140 - 3)).length := trimEndChars_length_le _
      have h2 : (s.data.take (140 - 3)).length ≤ 140 - 3 := by
        rw [List.length_take]; exact min_le_left _ _
      have : (trimEndChars (s.data.take (140 - 3))).length + 3 ≤ 140 := by omega
      exact le_trans this (le_max_right _ _)
  refine ⟨?_, ⟨rfl, rfl⟩, ?_⟩
  · cases raw with
    | none => decide
    | some s =>
      by_cases hs : s = ""
      · subst hs; decide
      · rw [hbody s hs]
        unfold truncateResponseText
        by_cases h : (normalizeResponseText s).length ≤ 140
        · rw [if_pos h]; exact h
        · rw [if_neg h, mk_append_ellipsis_length]
          have h1 : (trimEndChars ((normalizeResponseText s).data.take (140 - 3))).length ≤
              ((normalizeResponseText s).data.take (140 - 3)).length :=
            trimEndChars_length_le _
          have h2 : ((normalizeResponseText s).data.take (140 - 3)).length ≤ 140 - 3 := by
            rw [List.length_take]; exact min_le_left _ _
          omega
  · rintro s rfl hs
    refine ⟨⟨?_, ?_, ?_, ?_⟩, ?_, ?_⟩
    · intro c hc hsp
      have hmem : c ∈ collapseWs s.data :=
        (trimChars_sublist (collapseWs s.data)).subset hc
      exact collapseAux_space_eq false s.data c hmem hsp
    · exact trimChars_chain' _ (collapseAux_chain false s.data)
    · exact trimChars_head _
    · exact trimChars_last _
    · intro h
      rw [hbody s hs]
      unfold truncateResponseText
      rw [if_pos h]
    · intro h
      rw [hbody s hs]
      unfold truncateResponseText
      rw [if_neg (not_le.mpr h)]

/-- C10 witness: a text with tabs, newlines and interior runs is normalized to
single spaces and kept intact under the limit. -/
theorem buildNotificationBody_spec_witness :
    buildNotificationBody (some "  hi\t\n there  ") = "hi there" := by
  have h := (buildNotificationBody_spec (some "  hi\t\n there  ")).2.2
    "  hi\t\n there  " rfl (by decide)
  have := h.2.1 (by decide)
  rw [this]
  decide

end Cowork
